import Mathlib

/-!
# Verification of `scylla-cql/src/frame/value.rs`

A shallow embedding of the client-side CQL value-encoding engine:
byte-level serializers (the `Value` trait impls), the
`LegacySerializedValues` buffer, the batch-iteration decorators, and the
`CqlVarint` / `CqlTimeuuid` comparison semantics.

Bytes are modelled as `Nat` (serializers only ever produce values `< 256`);
a buffer is a `List Nat`.  A `Value::serialize` call is modelled by the
bytes it appends to the buffer together with an optional `ValueTooBig`
failure: `List Nat × Option ValueTooBig`.  On failure the first component
holds the bytes the call had appended before failing (the source appends
into the buffer and relies on the caller to roll back).
-/

namespace ScyllaValue

/-- `i32::MAX = 2^31 - 1`, the protocol's signed 32-bit length/count bound. -/
def i32max : Int := 2 ^ 31 - 1

/-- Big-endian two's-complement 4-byte encoding, as written by `put_i32`. -/
def int32be (n : Int) : List Nat :=
  let m := (n % 2 ^ 32).toNat
  [m / 2 ^ 24 % 256, m / 2 ^ 16 % 256, m / 2 ^ 8 % 256, m % 256]

/-- Big-endian two's-complement 2-byte encoding, as written by `put_i16`. -/
def int16be (n : Int) : List Nat :=
  let m := (n % 2 ^ 16).toNat
  [m / 2 ^ 8 % 256, m % 256]

/-- Big-endian two's-complement 8-byte encoding, as written by `put_i64`. -/
def int64be (n : Int) : List Nat :=
  let m := (n % 2 ^ 64).toNat
  [m / 2 ^ 56 % 256, m / 2 ^ 48 % 256, m / 2 ^ 40 % 256, m / 2 ^ 32 % 256,
   m / 2 ^ 24 % 256, m / 2 ^ 16 % 256, m / 2 ^ 8 % 256, m % 256]

/-- Big-endian unsigned 2-byte encoding, as written by `put_u16`. -/
def u16be (n : Nat) : List Nat :=
  [n / 2 ^ 8 % 256, n % 256]

/-- Big-endian unsigned 4-byte encoding, as written by `put_u32`. -/
def u32be (n : Nat) : List Nat :=
  [n / 2 ^ 24 % 256, n / 2 ^ 16 % 256, n / 2 ^ 8 % 256, n % 256]

/-- Big-endian unsigned 8-byte encoding, as written by `put_u64`. -/
def u64be (n : Nat) : List Nat :=
  [n / 2 ^ 56 % 256, n / 2 ^ 48 % 256, n / 2 ^ 40 % 256, n / 2 ^ 32 % 256,
   n / 2 ^ 24 % 256, n / 2 ^ 16 % 256, n / 2 ^ 8 % 256, n % 256]

/-- The `ValueTooBig` failure signal (a unit struct in the source). -/
inductive ValueTooBig : Type
  | mk
deriving DecidableEq, Repr

/-- Result of one `Value::serialize` call: the bytes appended to the buffer,
and an optional failure (on failure the bytes are what was appended before
the failure point). -/
abbrev SerAttempt := List Nat × Option ValueTooBig

/-- `impl Value for i8`: length 1, then the byte. -/
def serialize_i8 (v : Int) : SerAttempt :=
  (int32be 1 ++ [(v % 2 ^ 8).toNat], none)

/-- `impl Value for i16`: length 2, then 2 bytes big-endian. -/
def serialize_i16 (v : Int) : SerAttempt :=
  (int32be 2 ++ int16be v, none)

/-- `impl Value for i32`: length 4, then 4 bytes big-endian. -/
def serialize_i32 (v : Int) : SerAttempt :=
  (int32be 4 ++ int32be v, none)

/-- `impl Value for i64`: length 8, then 8 bytes big-endian. -/
def serialize_i64 (v : Int) : SerAttempt :=
  (int32be 8 ++ int64be v, none)

/-- `impl Value for bool`: length 1, then `0x01`/`0x00`. -/
def serialize_bool (b : Bool) : SerAttempt :=
  (int32be 1 ++ [if b then 1 else 0], none)

/-- `impl Value for f32`: length 4, then the 4 bytes of the bit pattern
(the bit pattern is carried as a `Nat`). -/
def serialize_f32bits (bits : Nat) : SerAttempt :=
  (int32be 4 ++ u32be bits, none)

/-- `impl Value for f64`: length 8, then the 8 bytes of the bit pattern. -/
def serialize_f64bits (bits : Nat) : SerAttempt :=
  (int32be 8 ++ u64be bits, none)

/-- `impl Value for CqlDate`: length 4, then the `u32` day offset big-endian. -/
def serialize_CqlDate (d : Nat) : SerAttempt :=
  (int32be 4 ++ u32be d, none)

/-- `impl Value for CqlTimestamp`: length 8, then the `i64` millis big-endian. -/
def serialize_CqlTimestamp (t : Int) : SerAttempt :=
  (int32be 8 ++ int64be t, none)

/-- `impl Value for CqlTime`: length 8, then the `i64` nanos big-endian. -/
def serialize_CqlTime (t : Int) : SerAttempt :=
  (int32be 8 ++ int64be t, none)

/-- `impl Value for &[u8]` (also `Vec<u8>`, `&str`, `String` via delegation):
fails with `ValueTooBig` when the byte length does not fit an `i32`,
otherwise writes the length then the bytes verbatim. -/
def serializeBytes (bs : List Nat) : SerAttempt :=
  if (bs.length : Int) > i32max then ([], some .mk)
  else (int32be bs.length ++ bs, none)

/-- `impl Value for CqlVarint`: raw (non-normalized) bytes, length-prefixed. -/
def serialize_CqlVarint (digits : List Nat) : SerAttempt :=
  if (digits.length : Int) > i32max then ([], some .mk)
  else (int32be digits.length ++ digits, none)

/-- `impl Value for CqlDecimal`: length `bytes.len() + 4`, then the `i32`
scale, then the varint bytes; fails when `bytes.len() > i32::MAX - 4`. -/
def serialize_CqlDecimal (bytes : List Nat) (scale : Int) : SerAttempt :=
  if (bytes.length : Int) > i32max - 4 then ([], some .mk)
  else (int32be (bytes.length + 4) ++ int32be scale ++ bytes, none)

/-- `impl Value for Counter`: delegates to `i64`. -/
def serialize_Counter (c : Int) : SerAttempt :=
  serialize_i64 c

/-- `impl Value for Unset`: the UNSET sentinel, length `-2`, no payload. -/
def serialize_Unset : SerAttempt :=
  (int32be (-2), none)

/-- `impl<T: Value> Value for Option<T>`: `Some` delegates to the inner
serializer, `None` writes the NULL sentinel (length `-1`, no payload). -/
def serializeOption (ser : α → SerAttempt) : Option α → SerAttempt
  | some v => ser v
  | none => (int32be (-1), none)

/-- The `MaybeUnset<V>` enum. -/
inductive MaybeUnset (V : Type) : Type
  | Unset
  | Set (v : V)

/-- `impl<V: Value> Value for MaybeUnset<V>`: `Set` delegates to the inner
serializer, `Unset` delegates to `Unset`'s serializer. -/
def serializeMaybeUnset (ser : V → SerAttempt) : MaybeUnset V → SerAttempt
  | .Set v => ser v
  | .Unset => serialize_Unset

/-- A well-formed wire cell: a 4-byte big-endian signed length prefix
followed by exactly that many payload bytes, or one of the two sentinels
(`-1` NULL, `-2` UNSET) with no payload. -/
def WellFormedCell (r : List Nat) : Prop :=
  (∃ payload : List Nat,
      (payload.length : Int) ≤ i32max ∧ r = int32be payload.length ++ payload) ∨
  r = int32be (-1) ∨ r = int32be (-2)

theorem wellFormedCell_of_len (payload r : List Nat) (n : Int)
    (hn : (payload.length : Int) = n) (hle : n ≤ i32max)
    (hr : r = int32be n ++ payload) : WellFormedCell r :=
  Or.inl ⟨payload, hn ▸ hle, by rw [hr, hn]⟩

/-- **C1**: serializing `Option::None` appends exactly `FF FF FF FF` (length
`-1`, no payload); `Unset` appends exactly `FF FF FF FE` (length `-2`, no
payload); `Some(v)` appends exactly the bytes `v`'s own serializer appends;
`MaybeUnset::Unset` serializes identically to `Unset` (never to NULL) and
`MaybeUnset::Set(v)` identically to `v`; and every embedded `Value`
implementer, on success, appends a 4-byte big-endian signed length prefix
followed by exactly that many payload bytes. -/
theorem C1_value_sentinels_and_length_cells :
    (∀ (α : Type) (ser : α → SerAttempt),
        serializeOption ser none = ([255, 255, 255, 255], none)) ∧
    serialize_Unset = ([255, 255, 255, 254], none) ∧
    (∀ (α : Type) (ser : α → SerAttempt) (v : α),
        serializeOption ser (some v) = ser v) ∧
    (∀ (V : Type) (ser : V → SerAttempt),
        serializeMaybeUnset ser .Unset = serialize_Unset ∧
        ∀ v : V, serializeMaybeUnset ser (.Set v) = ser v) ∧
    (∀ v : Int, WellFormedCell (serialize_i8 v).1) ∧
    (∀ v : Int, WellFormedCell (serialize_i16 v).1) ∧
    (∀ v : Int, WellFormedCell (serialize_i32 v).1) ∧
    (∀ v : Int, WellFormedCell (serialize_i64 v).1) ∧
    (∀ b : Bool, WellFormedCell (serialize_bool b).1) ∧
    (∀ d : Nat, WellFormedCell (serialize_CqlDate d).1) ∧
    (∀ t : Int, WellFormedCell (serialize_CqlTimestamp t).1) ∧
    (∀ t : Int, WellFormedCell (serialize_CqlTime t).1) ∧
    (∀ bs r, serializeBytes bs = (r, none) → WellFormedCell r) ∧
    (∀ ds r, serialize_CqlVarint ds = (r, none) → WellFormedCell r) ∧
    (∀ bs sc r, serialize_CqlDecimal bs sc = (r, none) → WellFormedCell r) ∧
    (∀ (α : Type) (ser : α → SerAttempt)
        (hser : ∀ v r, ser v = (r, none) → WellFormedCell r)
        (o : Option α) (r : List Nat),
        serializeOption ser o = (r, none) → WellFormedCell r) := by
  refine ⟨fun α ser => rfl, rfl, fun α ser v => rfl, fun V ser => ⟨rfl, fun v => rfl⟩,
    ?_, ?_, ?_, ?_, ?_, ?_, ?_, ?_, ?_, ?_, ?_, ?_⟩
  · intro v
    exact wellFormedCell_of_len [(v % 2 ^ 8).toNat] _ 1 (by simp) (by norm_num [i32max]) (by rfl)
  · intro v
    exact wellFormedCell_of_len (int16be v) _ 2 (by simp [int16be]) (by norm_num [i32max]) (by rfl)
  · intro v
    exact wellFormedCell_of_len (int32be v) _ 4 (by simp [int32be]) (by norm_num [i32max]) (by rfl)
  · intro v
    exact wellFormedCell_of_len (int64be v) _ 8 (by simp [int64be]) (by norm_num [i32max]) (by rfl)
  · intro b
    exact wellFormedCell_of_len [if b then 1 else 0] _ 1 (by simp) (by norm_num [i32max]) (by rfl)
  · intro d
    exact wellFormedCell_of_len (u32be d) _ 4 (by simp [u32be]) (by norm_num [i32max]) (by rfl)
  · intro t
    exact wellFormedCell_of_len (int64be t) _ 8 (by simp [int64be]) (by norm_num [i32max]) (by rfl)
  · intro t
    exact wellFormedCell_of_len (int64be t) _ 8 (by simp [int64be]) (by norm_num [i32max]) (by rfl)
  · intro bs r h
    unfold serializeBytes at h
    split at h
    · simp only [Prod.mk.injEq] at h
      exact absurd h.2 (by simp)
    · rename_i hgt
      push_neg at hgt
      simp only [Prod.mk.injEq] at h
      exact wellFormedCell_of_len bs r _ rfl hgt h.1.symm
  · intro ds r h
    unfold serialize_CqlVarint at h
    split at h
    · simp only [Prod.mk.injEq] at h
      exact absurd h.2 (by simp)
    · rename_i hgt
      push_neg at hgt
      simp only [Prod.mk.injEq] at h
      exact wellFormedCell_of_len ds r _ rfl hgt h.1.symm
  · intro bs sc r h
    unfold serialize_CqlDecimal at h
    split at h
    · simp only [Prod.mk.injEq] at h
      exact absurd h.2 (by simp)
    · rename_i hgt
      push_neg at hgt
      simp only [Prod.mk.injEq] at h
      refine wellFormedCell_of_len (int32be sc ++ bs) r ((bs.length : Int) + 4) ?_ ?_ ?_
      · simp only [List.length_append]
        have h4 : (int32be sc).length = 4 := by simp [int32be]
        rw [h4]
        push_cast
        ring
      · omega
      · rw [← h.1, List.append_assoc]
  · intro α ser hser o r h
    cases o with
    | none =>
      simp only [serializeOption, Prod.mk.injEq] at h
      exact Or.inr (Or.inl h.1.symm)
    | some v => exact hser v r h

/-- Witness for `C1_value_sentinels_and_length_cells` at concrete inputs. -/
theorem C1_value_sentinels_and_length_cells_witness :
    WellFormedCell (serializeBytes [7, 8]).1 ∧
    WellFormedCell (serializeOption serializeBytes (some [7])).1 := by
  constructor
  · exact C1_value_sentinels_and_length_cells.2.2.2.2.2.2.2.2.2.2.2.2.1
      [7, 8] [0, 0, 0, 2, 7, 8] (by decide)
  · exact C1_value_sentinels_and_length_cells.2.2.2.2.2.2.2.2.2.2.2.2.2.2.2
      (List Nat) serializeBytes
      C1_value_sentinels_and_length_cells.2.2.2.2.2.2.2.2.2.2.2.2.1
      (some [7]) [0, 0, 0, 1, 7] (by decide)

/-! ## `CqlTimeuuid` (legacy Cassandra comparison semantics) -/

/-- The 16 bytes of a `Uuid` in standard in-memory (RFC 4122 big-endian) order. -/
abbrev UuidBytes := Fin 16 → Fin 256

/-- `CqlTimeuuid`: a newtype over `Uuid`. -/
structure CqlTimeuuid where
  uuid : UuidBytes

/-- `CqlTimeuuid::msb`: reassemble `time_low`, `time_mid` and the low nibble
of `time_hi_and_version` (version nibble masked off with `& 0x0F`) into a
64-bit integer in the fixed bit layout of the source. -/
def CqlTimeuuid.msb (t : CqlTimeuuid) : Nat :=
  let bytes := fun i => (t.uuid i).val
  (bytes 6 % 16) * 2 ^ 56 + bytes 7 * 2 ^ 48 + bytes 4 * 2 ^ 40 + bytes 5 * 2 ^ 32 +
    bytes 0 * 2 ^ 24 + bytes 1 * 2 ^ 16 + bytes 2 * 2 ^ 8 + bytes 3

/-- `CqlTimeuuid::lsb`: the 8 least-significant bytes as a 64-bit integer. -/
def CqlTimeuuid.lsb (t : CqlTimeuuid) : Nat :=
  let bytes := fun i => (t.uuid i).val
  bytes 8 * 2 ^ 56 + bytes 9 * 2 ^ 48 + bytes 10 * 2 ^ 40 + bytes 11 * 2 ^ 32 +
    bytes 12 * 2 ^ 24 + bytes 13 * 2 ^ 16 + bytes 14 * 2 ^ 8 + bytes 15

/-- `CqlTimeuuid::lsb_signed`: `lsb ^ 0x8080808080808080` (flip every byte's
sign bit, making the 64-bit comparison effectively signed). -/
def CqlTimeuuid.lsb_signed (t : CqlTimeuuid) : Nat :=
  t.lsb ^^^ 0x8080808080808080

/-- `impl Ord for CqlTimeuuid`: compare `msb` first; on tie compare
`lsb_signed`. -/
def CqlTimeuuid.cmp (a b : CqlTimeuuid) : Ordering :=
  (compare a.msb b.msb).then (compare a.lsb_signed b.lsb_signed)

/-- `impl PartialEq for CqlTimeuuid`: `self.cmp(other) == Ordering::Equal`. -/
def CqlTimeuuid.eqv (a b : CqlTimeuuid) : Bool :=
  a.cmp b == Ordering.eq

/-- `impl Hash for CqlTimeuuid`: the hasher is fed `lsb_signed` then `msb`,
never the raw bytes; the hash is therefore a function of this pair. -/
def CqlTimeuuid.hashInput (t : CqlTimeuuid) : Nat × Nat :=
  (t.lsb_signed, t.msb)

/-- `impl Value for Uuid`: length 16, then the 16 raw bytes in standard
in-memory order. -/
def serializeUuid (u : UuidBytes) : SerAttempt :=
  (int32be 16 ++ List.ofFn (fun i => (u i).val), none)

/-- `impl Value for CqlTimeuuid`: delegates to the inner `Uuid`'s serializer. -/
def serialize_CqlTimeuuid (t : CqlTimeuuid) : SerAttempt :=
  serializeUuid t.uuid

theorem cmp_eq_iff_msb_lsb (a b : CqlTimeuuid) :
    a.cmp b = Ordering.eq ↔ a.msb = b.msb ∧ a.lsb_signed = b.lsb_signed := by
  unfold CqlTimeuuid.cmp
  rcases ha : compare a.msb b.msb <;> rcases hb : compare a.lsb_signed b.lsb_signed <;>
    simp_all [Ordering.then, Nat.compare_eq_lt, Nat.compare_eq_eq, Nat.compare_eq_gt] <;>
    omega

/-- **C4**: `cmp` compares `msb` (version nibble masked off) first and
`lsb_signed` on a tie; two values differing only in the version nibble
compare equal; equality holds exactly when `cmp` returns `Equal`; and two
values that compare equal have equal hash inputs (`lsb_signed`, `msb`). -/
theorem C4_timeuuid_cmp_eq_hash :
    (∀ a b : CqlTimeuuid,
        a.cmp b = (compare a.msb b.msb).then (compare a.lsb_signed b.lsb_signed)) ∧
    (∀ a b : CqlTimeuuid,
        (∀ i : Fin 16, i ≠ 6 → a.uuid i = b.uuid i) →
        (a.uuid 6).val % 16 = (b.uuid 6).val % 16 →
        a.cmp b = Ordering.eq) ∧
    (∀ a b : CqlTimeuuid, a.eqv b = true ↔ a.cmp b = Ordering.eq) ∧
    (∀ a b : CqlTimeuuid, a.cmp b = Ordering.eq → a.hashInput = b.hashInput) := by
  refine ⟨fun a b => rfl, ?_, ?_, ?_⟩
  · intro a b hne h6
    have hmsb : a.msb = b.msb := by
      unfold CqlTimeuuid.msb
      dsimp only
      rw [hne 7 (by decide), hne 4 (by decide), hne 5 (by decide), hne 0 (by decide),
        hne 1 (by decide), hne 2 (by decide), hne 3 (by decide), h6]
    have hlsb : a.lsb = b.lsb := by
      unfold CqlTimeuuid.lsb
      dsimp only
      rw [hne 8 (by decide), hne 9 (by decide), hne 10 (by decide), hne 11 (by decide),
        hne 12 (by decide), hne 13 (by decide), hne 14 (by decide), hne 15 (by decide)]
    rw [cmp_eq_iff_msb_lsb]
    exact ⟨hmsb, by unfold CqlTimeuuid.lsb_signed; rw [hlsb]⟩
  · intro a b
    unfold CqlTimeuuid.eqv
    cases h : a.cmp b <;> simp [h] <;> decide
  · intro a b h
    rw [cmp_eq_iff_msb_lsb] at h
    unfold CqlTimeuuid.hashInput
    rw [h.1, h.2]

/-- Witness for `C4_timeuuid_cmp_eq_hash`: two concrete timeuuids differing
only in the version nibble compare equal; the hash inputs then agree. -/
theorem C4_timeuuid_cmp_eq_hash_witness :
    CqlTimeuuid.cmp ⟨fun _ => 0⟩ ⟨fun i => if i = 6 then 16 else 0⟩ = Ordering.eq ∧
    CqlTimeuuid.hashInput ⟨fun _ => 0⟩ =
      CqlTimeuuid.hashInput ⟨fun i => if i = 6 then 16 else 0⟩ := by
  have h1 := C4_timeuuid_cmp_eq_hash.2.1 ⟨fun _ => 0⟩ ⟨fun i => if i = 6 then 16 else 0⟩
    (by decide) (by decide)
  exact ⟨h1, C4_timeuuid_cmp_eq_hash.2.2.2 _ _ h1⟩

/-- **C10**: for every UUID value, `CqlTimeuuid`'s wire encoding is exactly
the 4-byte big-endian length 16 followed by the 16 raw bytes in standard
in-memory order — byte-identical to `Uuid`'s own encoding; the legacy
msb/lsb reordering used by `cmp`/`eq`/`hash` never affects the wire form. -/
theorem C10_timeuuid_wire_equals_uuid :
    ∀ t : CqlTimeuuid,
      serialize_CqlTimeuuid t = serializeUuid t.uuid ∧
      serialize_CqlTimeuuid t =
        ([0, 0, 0, 16] ++ List.ofFn (fun i => (t.uuid i).val), none) := by
  intro t
  refine ⟨rfl, ?_⟩
  unfold serialize_CqlTimeuuid serializeUuid
  norm_num [int32be]
  decide

/-! ## `CqlVarint` (raw bytes, normalized equality) -/

/-- `CqlVarint::as_normalized_slice`: empty and all-zero sequences map to
`[0x00]`; otherwise strip leading zero bytes, retaining exactly one leading
zero when the first non-zero byte has its high bit set (`> 0x7f`). -/
def as_normalized_slice (digits : List Nat) : List Nat :=
  if digits = [] then [0]
  else
    match digits.findIdx? (fun b => b != 0) with
    | none => [0]
    | some pos =>
      if 0 < pos then
        if 0x7f < digits.getD pos 0 then digits.drop (pos - 1)
        else digits.drop pos
      else digits

/-- `impl PartialEq for CqlVarint`: compare the normalized slices. -/
def varintEqv (a b : List Nat) : Bool :=
  as_normalized_slice a == as_normalized_slice b

/-- `impl Hash for CqlVarint`: the hasher is fed the normalized slice, so the
hash is a function of it. -/
def varintHashInput (digits : List Nat) : List Nat :=
  as_normalized_slice digits

theorem findIdx?_replicate_zero_cons (k : Nat) (d : Nat) (rest : List Nat)
    (hd : d ≠ 0) :
    (List.replicate k 0 ++ d :: rest).findIdx? (fun b => b != 0) = some k := by
  induction k with
  | zero => simp [List.findIdx?_cons, hd]
  | succ n ih =>
    rw [List.replicate_succ, List.cons_append]
    simp [ih]

theorem getD_replicate_zero_cons (k : Nat) (d : Nat) (rest : List Nat) :
    (List.replicate k 0 ++ d :: rest).getD k 0 = d := by
  induction k with
  | zero => rfl
  | succ n ih =>
    rw [List.replicate_succ, List.cons_append]
    exact ih

theorem drop_replicate_zero_cons (k j : Nat) (l : List Nat) (h : j ≤ k) :
    (List.replicate k 0 ++ l).drop j = List.replicate (k - j) 0 ++ l := by
  induction k generalizing j with
  | zero =>
    interval_cases j
    rfl
  | succ n ih =>
    cases j with
    | zero => rfl
    | succ m =>
      rw [List.replicate_succ, List.cons_append, List.drop_succ_cons,
        ih m (Nat.le_of_succ_le_succ h), Nat.succ_sub_succ]

/-- **C3**: `CqlVarint` values are equal exactly when their normalized forms
are byte-equal; normalization maps empty and all-zero sequences to `[0x00]`,
strips leading zeros but keeps one leading zero when the first non-zero byte
has its high bit set; equal values hash alike; `serialize` always emits the
raw non-normalized bytes length-prefixed; and concretely `[0x00, 0x01]`
equals `[0x01]` while their wire encodings are `00 00 00 02 00 01` versus
`00 00 00 01 01`. -/
theorem C3_varint_normalization_eq_serialize :
    (∀ a b : List Nat,
        varintEqv a b = true ↔ as_normalized_slice a = as_normalized_slice b) ∧
    as_normalized_slice [] = [0] ∧
    (∀ n : Nat, as_normalized_slice (List.replicate n 0) = [0]) ∧
    (∀ (k d : Nat) (rest : List Nat), d ≠ 0 →
        as_normalized_slice (List.replicate k 0 ++ d :: rest) =
          if k = 0 then d :: rest
          else if 0x7f < d then 0 :: d :: rest else d :: rest) ∧
    (∀ a b : List Nat, varintEqv a b = true → varintHashInput a = varintHashInput b) ∧
    (∀ digits : List Nat, (digits.length : Int) ≤ i32max →
        serialize_CqlVarint digits = (int32be digits.length ++ digits, none)) ∧
    (varintEqv [0x00, 0x01] [0x01] = true ∧
      serialize_CqlVarint [0x00, 0x01] = ([0, 0, 0, 2, 0, 1], none) ∧
      serialize_CqlVarint [0x01] = ([0, 0, 0, 1, 1], none)) := by
  have hmain : ∀ (k d : Nat) (rest : List Nat), d ≠ 0 →
      as_normalized_slice (List.replicate k 0 ++ d :: rest) =
        if k = 0 then d :: rest
        else if 0x7f < d then 0 :: d :: rest else d :: rest := by
    intro k d rest hd
    unfold as_normalized_slice
    have hne : List.replicate k 0 ++ d :: rest ≠ [] := by simp
    rw [if_neg hne, findIdx?_replicate_zero_cons k d rest hd]
    cases k with
    | zero => simp
    | succ n =>
      dsimp only
      rw [if_pos (Nat.succ_pos n), getD_replicate_zero_cons,
        if_neg (Nat.succ_ne_zero n)]
      by_cases h7 : 0x7f < d
      · rw [if_pos h7, if_pos h7]
        have hs : n + 1 - 1 = n := rfl
        rw [hs, drop_replicate_zero_cons (n + 1) n _ (Nat.le_succ n)]
        have h1 : n + 1 - n = 1 := by omega
        rw [h1]
        rfl
      · rw [if_neg h7, if_neg h7,
          drop_replicate_zero_cons (n + 1) (n + 1) _ (Nat.le_refl _)]
        have h1 : n + 1 - (n + 1) = 0 := by omega
        rw [h1]
        rfl
  refine ⟨?_, rfl, ?_, hmain, ?_, ?_, ?_, by decide, by decide⟩
  · intro a b
    unfold varintEqv
    exact beq_iff_eq
  · intro n
    cases n with
    | zero => rfl
    | succ m =>
      unfold as_normalized_slice
      have hne : List.replicate (m + 1) (0 : Nat) ≠ [] := by simp
      rw [if_neg hne]
      have hfind : (List.replicate (m + 1) (0 : Nat)).findIdx? (fun b => b != 0) = none := by
        rw [List.findIdx?_eq_none_iff]
        intro x hx
        rw [List.eq_of_mem_replicate hx]
        rfl
      rw [hfind]
  · intro a b h
    unfold varintHashInput
    unfold varintEqv at h
    exact beq_iff_eq.mp h
  · intro digits h
    unfold serialize_CqlVarint
    rw [if_neg (by omega)]
  · decide

/-- Witness for `C3_varint_normalization_eq_serialize`: the leading-zero
stripping clause at `k = 1`, `d = 0x80` (high bit set: one zero retained)
and the raw-serialization clause at `[0x00, 0x01]`. -/
theorem C3_varint_normalization_eq_serialize_witness :
    as_normalized_slice [0, 0x80] = [0, 0x80] ∧
    serialize_CqlVarint [0, 1] = (int32be (List.length [0, 1]) ++ [0, 1], none) := by
  constructor
  · have h := C3_varint_normalization_eq_serialize.2.2.2.1 1 0x80 [] (by decide)
    simpa using h
  · exact C3_varint_normalization_eq_serialize.2.2.2.2.2.1 [0, 1] (by decide)

/-! ## `LegacySerializedValues` buffer construction -/

/-- `SerializeValuesError`: the composite failure type for buffer
construction. -/
inductive SerializeValuesError : Type
  | TooManyValues
  | MixingNamedAndNotNamedValues
  | ValueTooBigE (e : ValueTooBig)
  | ParseError
deriving DecidableEq, Repr

/-- The `LegacySerializedValues` buffer: accumulated encoded bytes, element
count (a `u16` in the source) and the sticky named-mode flag. -/
structure LegacySerializedValues where
  serialized_values : List Nat
  values_num : Nat
  contains_names : Bool
deriving DecidableEq, Repr

/-- `Vec::resize(n, x)`: truncate to `n` elements, or pad with `x` up to `n`. -/
def listResize (l : List Nat) (n : Nat) (x : Nat) : List Nat :=
  if n ≤ l.length then l.take n else l ++ List.replicate (n - l.length) x

/-- Modelled from the spec: `types::write_string` (not under `src/`), the
protocol short-string writer used for value names — a `u16` big-endian
length followed by the UTF-8 bytes (names are carried here as their byte
sequences; UTF-8 validity is not re-modelled since names originate from
host strings).  It fails, leaving the buffer untouched, exactly when the
byte length does not fit a `u16` (the length conversion fails before
anything is written). -/
def write_string (name : List Nat) (buf : List Nat) : List Nat × Bool :=
  if name.length ≤ 65535 then (buf ++ u16be name.length ++ name, true)
  else (buf, false)

/-- `LegacySerializedValues::add_value`: reject if in named mode, reject if
65535 values are already present, otherwise run the value's serializer on
the buffer; on its failure resize the buffer back to its pre-call length
and wrap the error, on success commit and bump the count.  The serializer
is abstracted as the `SerAttempt` it would produce on this call. -/
def add_value (s : LegacySerializedValues) (val : SerAttempt) :
    LegacySerializedValues × Option SerializeValuesError :=
  if s.contains_names then (s, some .MixingNamedAndNotNamedValues)
  else if s.values_num = 65535 then (s, some .TooManyValues)
  else
    let len_before := s.serialized_values.length
    let appended := s.serialized_values ++ val.1
    match val.2 with
    | some e =>
      ({ s with serialized_values := listResize appended len_before 0 },
        some (.ValueTooBigE e))
    | none =>
      ({ s with serialized_values := appended, values_num := s.values_num + 1 },
        none)

/-- `LegacySerializedValues::add_named_value`: reject mixing, then set the
named-mode flag (the source sets it before any further validation), reject
if 65535 values are already present, write the name (a failure there is
reported as `ParseError`), then run the value's serializer; on its failure
resize back to the pre-name length and wrap the error, on success commit. -/
def add_named_value (s : LegacySerializedValues) (name : List Nat)
    (val : SerAttempt) : LegacySerializedValues × Option SerializeValuesError :=
  if 0 < s.values_num ∧ s.contains_names = false then
    (s, some .MixingNamedAndNotNamedValues)
  else
    let s1 := { s with contains_names := true }
    if s1.values_num = 65535 then (s1, some .TooManyValues)
    else
      let len_before := s1.serialized_values.length
      match write_string name s1.serialized_values with
      | (_, false) => (s1, some .ParseError)
      | (buf1, true) =>
        match val.2 with
        | some e =>
          ({ s1 with serialized_values := listResize (buf1 ++ val.1) len_before 0 },
            some (.ValueTooBigE e))
        | none =>
          ({ s1 with
              serialized_values := buf1 ++ val.1
              values_num := s1.values_num + 1 },
            none)

theorem listResize_append_rollback (l r : List Nat) :
    listResize (l ++ r) l.length 0 = l := by
  unfold listResize
  rw [if_pos (by simp), List.take_left]

theorem add_value_mixing (s : LegacySerializedValues) (val : SerAttempt)
    (h : s.contains_names = true) :
    add_value s val = (s, some .MixingNamedAndNotNamedValues) := by
  unfold add_value
  rw [if_pos h]

theorem add_value_toomany (s : LegacySerializedValues) (val : SerAttempt)
    (h1 : s.contains_names = false) (h2 : s.values_num = 65535) :
    add_value s val = (s, some .TooManyValues) := by
  unfold add_value
  rw [if_neg (by simp [h1]), if_pos h2]

theorem add_value_inner_err (s : LegacySerializedValues) (bytes : List Nat)
    (e : ValueTooBig) (h1 : s.contains_names = false) (h2 : s.values_num ≠ 65535) :
    add_value s (bytes, some e) =
      ({ s with serialized_values :=
          listResize (s.serialized_values ++ bytes) s.serialized_values.length 0 },
        some (.ValueTooBigE e)) := by
  unfold add_value
  rw [if_neg (by simp [h1]), if_neg h2]

theorem add_value_ok (s : LegacySerializedValues) (bytes : List Nat)
    (h1 : s.contains_names = false) (h2 : s.values_num ≠ 65535) :
    add_value s (bytes, none) =
      ({ s with
          serialized_values := s.serialized_values ++ bytes
          values_num := s.values_num + 1 },
        none) := by
  unfold add_value
  rw [if_neg (by simp [h1]), if_neg h2]

theorem add_named_value_mixing (s : LegacySerializedValues) (name : List Nat)
    (val : SerAttempt) (h : 0 < s.values_num ∧ s.contains_names = false) :
    add_named_value s name val = (s, some .MixingNamedAndNotNamedValues) := by
  unfold add_named_value
  rw [if_pos h]

theorem add_named_value_toomany (s : LegacySerializedValues) (name : List Nat)
    (val : SerAttempt) (hmix : ¬(0 < s.values_num ∧ s.contains_names = false))
    (h2 : s.values_num = 65535) :
    add_named_value s name val =
      ({ s with contains_names := true }, some .TooManyValues) := by
  unfold add_named_value
  rw [if_neg hmix, if_pos h2]

theorem add_named_value_nametoolong (s : LegacySerializedValues)
    (name : List Nat) (val : SerAttempt)
    (hmix : ¬(0 < s.values_num ∧ s.contains_names = false))
    (h2 : s.values_num ≠ 65535) (hn : ¬name.length ≤ 65535) :
    add_named_value s name val =
      ({ s with contains_names := true }, some .ParseError) := by
  unfold add_named_value
  rw [if_neg hmix, if_neg h2]
  unfold write_string
  rw [if_neg hn]

theorem add_named_value_inner_err (s : LegacySerializedValues)
    (name bytes : List Nat) (e : ValueTooBig)
    (hmix : ¬(0 < s.values_num ∧ s.contains_names = false))
    (h2 : s.values_num ≠ 65535) (hn : name.length ≤ 65535) :
    add_named_value s name (bytes, some e) =
      ({ s with
          contains_names := true
          serialized_values :=
            listResize ((s.serialized_values ++ u16be name.length ++ name) ++ bytes)
              s.serialized_values.length 0 },
        some (.ValueTooBigE e)) := by
  unfold add_named_value
  rw [if_neg hmix, if_neg h2]
  unfold write_string
  rw [if_pos hn]

theorem add_named_value_ok (s : LegacySerializedValues)
    (name bytes : List Nat)
    (hmix : ¬(0 < s.values_num ∧ s.contains_names = false))
    (h2 : s.values_num ≠ 65535) (hn : name.length ≤ 65535) :
    add_named_value s name (bytes, none) =
      ({ s with
          contains_names := true
          serialized_values := (s.serialized_values ++ u16be name.length ++ name) ++ bytes
          values_num := s.values_num + 1 },
        none) := by
  unfold add_named_value
  rw [if_neg hmix, if_neg h2]
  unfold write_string
  rw [if_pos hn]

/-- **C2** (counterexample): `add_named_value` on an empty, unnamed buffer
with a name of 65536 bytes fails with `ParseError` but does *not* leave the
buffer in its pre-call state: the named-mode flag has been flipped to
`true` (the source sets `contains_names = true` before writing the name). -/
theorem C2_counterexample_flag_not_rolled_back :
    (add_named_value ⟨[], 0, false⟩ (List.replicate 65536 0)
        ([0, 0, 0, 4, 0, 0, 0, 0], none)).2 = some .ParseError ∧
    (add_named_value ⟨[], 0, false⟩ (List.replicate 65536 0)
        ([0, 0, 0, 4, 0, 0, 0, 0], none)).1 ≠ ⟨[], 0, false⟩ := by
  have hlen : (List.replicate 65536 (0 : Nat)).length = 65536 :=
    List.length_replicate 65536 0
  have h := add_named_value_nametoolong ⟨[], 0, false⟩ (List.replicate 65536 0)
    ([0, 0, 0, 4, 0, 0, 0, 0], none) (by decide) (by decide)
    (by rw [hlen]; omega)
  rw [h]
  exact ⟨rfl, by decide⟩

/-- **C2** (amended): a failed `add_value` leaves the buffer exactly in its
pre-call state.  A failed `add_named_value` leaves the byte region and the
value count exactly in their pre-call state; the named-mode flag is also
unchanged, except that a `ParseError` or inner-`ValueTooBig` failure
leaves the flag set to `true` — observable precisely when the buffer was
previously empty and unnamed (in every other reachable case the flag was
already `true` or the mixing check fires first). -/
theorem C2_failed_append_rollback_amended :
    (∀ (s : LegacySerializedValues) (val : SerAttempt) (e : SerializeValuesError),
        (add_value s val).2 = some e → (add_value s val).1 = s) ∧
    (∀ (s : LegacySerializedValues) (name : List Nat) (val : SerAttempt)
        (e : SerializeValuesError), (add_named_value s name val).2 = some e →
        (add_named_value s name val).1.serialized_values = s.serialized_values ∧
        (add_named_value s name val).1.values_num = s.values_num ∧
        ((add_named_value s name val).1.contains_names = s.contains_names ∨
          ((e = .ParseError ∨ e = .ValueTooBigE .mk) ∧
            (add_named_value s name val).1.contains_names = true ∧
            s.values_num = 0 ∧ s.contains_names = false))) := by
  constructor
  · intro s val e h
    by_cases h1 : s.contains_names = true
    · rw [add_value_mixing s val h1]
    · have h1f : s.contains_names = false := by simpa using h1
      by_cases h2 : s.values_num = 65535
      · rw [add_value_toomany s val h1f h2]
      · rcases val with ⟨bytes, verr⟩
        rcases verr with _ | e'
        · rw [add_value_ok s bytes h1f h2] at h
          exact Option.noConfusion h
        · rw [add_value_inner_err s bytes e' h1f h2]
          simp only [listResize_append_rollback]
  · intro s name val e h
    by_cases hmix : 0 < s.values_num ∧ s.contains_names = false
    · rw [add_named_value_mixing s name val hmix]
      exact ⟨rfl, rfl, Or.inl rfl⟩
    · have hflag : s.contains_names = false → s.values_num = 0 := by
        intro hc
        by_contra hne
        exact hmix ⟨by omega, hc⟩
      by_cases h2 : s.values_num = 65535
      · rw [add_named_value_toomany s name val hmix h2] at h ⊢
        refine ⟨rfl, rfl, Or.inl ?_⟩
        rcases hc : s.contains_names with _ | _
        · exact absurd h2 (by rw [hflag hc]; omega)
        · rfl
      · by_cases hn : name.length ≤ 65535
        · rcases val with ⟨bytes, verr⟩
          rcases verr with _ | e'
          · rw [add_named_value_ok s name bytes hmix h2 hn] at h
            exact Option.noConfusion h
          · rw [add_named_value_inner_err s name bytes e' hmix h2 hn] at h ⊢
            refine ⟨?_, rfl, ?_⟩
            · simp only
              rw [List.append_assoc, List.append_assoc, ← List.append_assoc]
              have hr := listResize_append_rollback s.serialized_values
                (u16be name.length ++ (name ++ bytes))
              rw [← List.append_assoc] at hr
              exact hr
            · rcases hc : s.contains_names with _ | _
              · right
                simp only [Option.some.injEq] at h
                rcases e' with _
                exact ⟨Or.inr h.symm, rfl, hflag hc, rfl⟩
              · exact Or.inl rfl
        · rw [add_named_value_nametoolong s name val hmix h2 hn] at h ⊢
          refine ⟨rfl, rfl, ?_⟩
          rcases hc : s.contains_names with _ | _
          · right
            simp only [Option.some.injEq] at h
            exact ⟨Or.inl h.symm, rfl, hflag hc, rfl⟩
          · exact Or.inl rfl

/-- Witness for `C2_failed_append_rollback_amended` at concrete inputs:
a mixing failure of `add_value` on a named buffer and a too-many-values
failure of `add_named_value` on a full named buffer. -/
theorem C2_failed_append_rollback_amended_witness :
    (add_value ⟨[1], 1, true⟩ ([9], none)).1 = ⟨[1], 1, true⟩ ∧
    (add_named_value ⟨[], 65535, true⟩ [65] ([9], none)).1.values_num = 65535 := by
  constructor
  · exact C2_failed_append_rollback_amended.1 ⟨[1], 1, true⟩ ([9], none)
      .MixingNamedAndNotNamedValues (by decide)
  · exact (C2_failed_append_rollback_amended.2 ⟨[], 65535, true⟩ [65] ([9], none)
      .TooManyValues (by decide)).2.1

/-- **C6** (counterexample): an append that meets none of the claim's three
failure conditions (the empty buffer holds 0 values, no mixing, and the
value's serialization succeeds) nevertheless fails — `add_named_value`
with a 65536-byte name returns the `ParseError` condition, which the
claim's "exactly these failures" list omits. -/
theorem C6_counterexample_parse_error_not_listed :
    (add_named_value ⟨[], 0, false⟩ (List.replicate 65536 0)
        ([0, 0, 0, 1, 7], none)).2 = some .ParseError := by
  rw [add_named_value_nametoolong ⟨[], 0, false⟩ (List.replicate 65536 0)
    ([0, 0, 0, 1, 7], none) (by decide) (by decide)
    (by rw [List.length_replicate]; omega)]

/-- **C6** (amended): the 65536th append is rejected with the too-many-values
condition; a positional append on a named buffer, and a named append on a
buffer already holding a positional value, are rejected with the mixing
condition; a payload whose byte length does not fit a signed 32-bit field
fails with `ValueTooBig` (and that is the only way the byte-slice
serializer fails); an inner `ValueTooBig` is wrapped and propagated;
`add_named_value` additionally fails with the parse-error condition when
the name's byte length does not fit a `u16` (> 65535 bytes); and any
append meeting none of these failure conditions succeeds. -/
theorem C6_append_failure_conditions_amended :
    (∀ (s : LegacySerializedValues) (val : SerAttempt),
        s.contains_names = false → s.values_num = 65535 →
        (add_value s val).2 = some .TooManyValues) ∧
    (∀ (s : LegacySerializedValues) (name : List Nat) (val : SerAttempt),
        ¬(0 < s.values_num ∧ s.contains_names = false) → s.values_num = 65535 →
        (add_named_value s name val).2 = some .TooManyValues) ∧
    (∀ (s : LegacySerializedValues) (val : SerAttempt),
        s.contains_names = true →
        (add_value s val).2 = some .MixingNamedAndNotNamedValues) ∧
    (∀ (s : LegacySerializedValues) (name : List Nat) (val : SerAttempt),
        0 < s.values_num → s.contains_names = false →
        (add_named_value s name val).2 = some .MixingNamedAndNotNamedValues) ∧
    (∀ bs : List Nat,
        (serializeBytes bs).2 = some .mk ↔ i32max < (bs.length : Int)) ∧
    (∀ (s : LegacySerializedValues) (bytes : List Nat) (e : ValueTooBig),
        s.contains_names = false → s.values_num ≠ 65535 →
        (add_value s (bytes, some e)).2 = some (.ValueTooBigE e)) ∧
    (∀ (s : LegacySerializedValues) (name : List Nat) (val : SerAttempt),
        ¬(0 < s.values_num ∧ s.contains_names = false) → s.values_num ≠ 65535 →
        65535 < name.length →
        (add_named_value s name val).2 = some .ParseError) ∧
    (∀ (s : LegacySerializedValues) (bytes : List Nat),
        s.contains_names = false → s.values_num ≠ 65535 →
        (add_value s (bytes, none)).2 = none) ∧
    (∀ (s : LegacySerializedValues) (name bytes : List Nat),
        ¬(0 < s.values_num ∧ s.contains_names = false) → s.values_num ≠ 65535 →
        name.length ≤ 65535 →
        (add_named_value s name (bytes, none)).2 = none) := by
  refine ⟨?_, ?_, ?_, ?_, ?_, ?_, ?_, ?_, ?_⟩
  · intro s val h1 h2
    rw [add_value_toomany s val h1 h2]
  · intro s name val hmix h2
    rw [add_named_value_toomany s name val hmix h2]
  · intro s val h1
    rw [add_value_mixing s val h1]
  · intro s name val h1 h2
    rw [add_named_value_mixing s name val ⟨h1, h2⟩]
  · intro bs
    unfold serializeBytes
    constructor
    · intro h
      by_contra hle
      rw [if_neg (by omega)] at h
      exact Option.noConfusion h
    · intro h
      rw [if_pos (by omega)]
  · intro s bytes e h1 h2
    rw [add_value_inner_err s bytes e h1 h2]
  · intro s name val hmix h2 hn
    rw [add_named_value_nametoolong s name val hmix h2 (by omega)]
  · intro s bytes h1 h2
    rw [add_value_ok s bytes h1 h2]
  · intro s name bytes hmix h2 hn
    rw [add_named_value_ok s name bytes hmix h2 hn]

/-- Witness for `C6_append_failure_conditions_amended` at concrete inputs:
the 65536th positional append is rejected, a named-after-positional append
is rejected, and an append meeting no failure condition succeeds. -/
theorem C6_append_failure_conditions_amended_witness :
    (add_value ⟨[], 65535, false⟩ ([0, 0, 0, 1, 7], none)).2 =
      some .TooManyValues ∧
    (add_named_value ⟨[0, 0, 0, 1, 7], 1, false⟩ [65] ([0, 0, 0, 1, 8], none)).2 =
      some .MixingNamedAndNotNamedValues ∧
    (add_value ⟨[], 0, false⟩ ([0, 0, 0, 1, 7], none)).2 = none := by
  refine ⟨?_, ?_, ?_⟩
  · exact C6_append_failure_conditions_amended.1 ⟨[], 65535, false⟩
      ([0, 0, 0, 1, 7], none) (by decide) (by decide)
  · exact C6_append_failure_conditions_amended.2.2.2.1 ⟨[0, 0, 0, 1, 7], 1, false⟩
      [65] ([0, 0, 0, 1, 8], none) (by decide) (by decide)
  · exact C6_append_failure_conditions_amended.2.2.2.2.2.2.2.1 ⟨[], 0, false⟩
      [0, 0, 0, 1, 7] (by decide) (by decide)

/-! ## Value-buffer wire form and reconstruction -/

/-- `LegacySerializedValues::write_to_request`: a 2-byte big-endian count
followed by the accumulated bytes verbatim. -/
def write_to_request (s : LegacySerializedValues) : List Nat :=
  u16be s.values_num ++ s.serialized_values

/-- Modelled from the spec: `types::read_short` (not under `src/`) — read a
big-endian `u16`, failing if fewer than 2 bytes remain. -/
def read_short : List Nat → Option (Nat × List Nat)
  | b0 :: b1 :: rest => some (b0 * 2 ^ 8 + b1, rest)
  | _ => none

/-- Decode a big-endian two's-complement `i32` from 4 bytes. -/
def decodeI32 (b0 b1 b2 b3 : Nat) : Int :=
  let m : Nat := b0 * 2 ^ 24 + b1 * 2 ^ 16 + b2 * 2 ^ 8 + b3
  if m < 2 ^ 31 then (m : Int) else (m : Int) - 2 ^ 32

/-- Modelled from the spec: `types::read_int` — read a big-endian `i32`,
failing if fewer than 4 bytes remain. -/
def read_int : List Nat → Option (Int × List Nat)
  | b0 :: b1 :: b2 :: b3 :: rest => some (decodeI32 b0 b1 b2 b3, rest)
  | _ => none

/-- `RawValue`: a parsed value cell — NULL, UNSET, or present bytes. -/
inductive RawValue : Type
  | Null
  | Unset
  | Value (bytes : List Nat)
deriving DecidableEq, Repr

/-- Modelled from the spec: `types::read_value` — read an `i32` length, then
`-2` is UNSET, `-1` is NULL, a non-negative length is that many payload
bytes, and any other negative length is a parse error. -/
def read_value (buf : List Nat) : Option (RawValue × List Nat) :=
  match read_int buf with
  | none => none
  | some (len, rest) =>
    if len = -2 then some (.Unset, rest)
    else if len = -1 then some (.Null, rest)
    else if 0 ≤ len then
      if len.toNat ≤ rest.length then
        some (.Value (rest.take len.toNat), rest.drop len.toNat)
      else none
    else none

/-- Modelled from the spec: `types::read_bytes_opt` — read an `i32` length;
any negative length yields no bytes, a non-negative length consumes that
many bytes. -/
def read_bytes_opt (buf : List Nat) : Option (Option (List Nat) × List Nat) :=
  match read_int buf with
  | none => none
  | some (len, rest) =>
    if len < 0 then some (none, rest)
    else if len.toNat ≤ rest.length then
      some (some (rest.take len.toNat), rest.drop len.toNat)
    else none

/-- Modelled from the spec: `types::read_string` — a protocol short string,
`u16` length then that many bytes (UTF-8 validity is not re-modelled; names
written by `write_string` originate from host strings). -/
def read_string (buf : List Nat) : Option (List Nat × List Nat) :=
  match read_short buf with
  | none => none
  | some (n, rest) =>
    if n ≤ rest.length then some (rest.take n, rest.drop n) else none

/-- Parse one pair the way `iter_name_value_pairs` walks the accumulated
region: an optional name (present iff the buffer is named, via
`read_string`) followed by a value cell (via `read_value`). -/
def parseElem (contains_names : Bool) (buf : List Nat) :
    Option ((Option (List Nat) × RawValue) × List Nat) :=
  match contains_names with
  | true =>
    match read_string buf with
    | none => none
    | some (nm, rest) => (read_value rest).map fun vr => ((some nm, vr.1), vr.2)
  | false => (read_value buf).map fun vr => ((none, vr.1), vr.2)

/-- Skip one pair the way `new_from_frame` walks the wire bytes:
`read_string` for the name when expected, then `read_bytes_opt`. -/
def skipElem (contains_names : Bool) (buf : List Nat) : Option (List Nat) :=
  match contains_names with
  | true =>
    match read_string buf with
    | none => none
    | some (_, rest) => (read_bytes_opt rest).map (·.2)
  | false => (read_bytes_opt buf).map (·.2)

/-- Parse `n` name/value pairs (`iter_name_value_pairs` over a well-formed
region). -/
def parsePairs (contains_names : Bool) :
    Nat → List Nat → Option (List (Option (List Nat) × RawValue) × List Nat)
  | 0, buf => some ([], buf)
  | n + 1, buf =>
    match parseElem contains_names buf with
    | none => none
    | some (pr, rest) =>
      (parsePairs contains_names n rest).map fun lr => (pr :: lr.1, lr.2)

/-- Skip `n` name/value pairs (the loop of `new_from_frame`). -/
def skipPairs (contains_names : Bool) : Nat → List Nat → Option (List Nat)
  | 0, buf => some buf
  | n + 1, buf =>
    match skipElem contains_names buf with
    | none => none
    | some rest => skipPairs contains_names n rest

/-- `LegacySerializedValues::new_from_frame`: read the `u16` count, skip
that many name/value pairs, and return a buffer whose accumulated region is
the exact consumed slice of the input (no re-encoding). -/
def new_from_frame (buf : List Nat) (contains_names : Bool) :
    Option LegacySerializedValues :=
  match read_short buf with
  | none => none
  | some (values_num, values_beg) =>
    match skipPairs contains_names values_num values_beg with
    | none => none
    | some restAfter =>
      some ⟨values_beg.take (values_beg.length - restAfter.length),
        values_num, contains_names⟩

theorem read_short_u16be (n : Nat) (rest : List Nat) (h : n < 65536) :
    read_short (u16be n ++ rest) = some (n, rest) := by
  unfold u16be read_short
  simp only [List.cons_append, List.nil_append, Option.some.injEq, Prod.mk.injEq]
  refine ⟨?_, trivial⟩
  have h1 : n / 2 ^ 8 % 256 = n / 2 ^ 8 := Nat.mod_eq_of_lt (by omega)
  rw [h1]
  have h2 := Nat.div_add_mod n (2 ^ 8)
  omega

theorem read_value_read_bytes_opt (buf : List Nat) (v : RawValue)
    (rest : List Nat) (h : read_value buf = some (v, rest)) :
    ∃ ob, read_bytes_opt buf = some (ob, rest) := by
  unfold read_value at h
  unfold read_bytes_opt
  rcases hri : read_int buf with _ | ⟨len, rest0⟩
  · rw [hri] at h
    exact Option.noConfusion h
  · rw [hri] at h
    dsimp only at h ⊢
    by_cases h2 : len = -2
    · rw [if_pos h2] at h
      rw [if_pos (by omega)]
      simp only [Option.some.injEq, Prod.mk.injEq] at h
      exact ⟨none, by rw [h.2]⟩
    · rw [if_neg h2] at h
      by_cases h1 : len = -1
      · rw [if_pos h1] at h
        rw [if_pos (by omega)]
        simp only [Option.some.injEq, Prod.mk.injEq] at h
        exact ⟨none, by rw [h.2]⟩
      · rw [if_neg h1] at h
        by_cases h0 : 0 ≤ len
        · rw [if_pos h0] at h
          rw [if_neg (by omega)]
          by_cases hlen : len.toNat ≤ rest0.length
          · rw [if_pos hlen] at h
            rw [if_pos hlen]
            simp only [Option.some.injEq, Prod.mk.injEq] at h
            exact ⟨some (rest0.take len.toNat), by rw [h.2]⟩
          · rw [if_neg hlen] at h
            exact Option.noConfusion h
        · rw [if_neg h0] at h
          exact Option.noConfusion h

theorem skipElem_of_parseElem (contains_names : Bool) (buf : List Nat)
    (pr : Option (List Nat) × RawValue) (rest : List Nat)
    (h : parseElem contains_names buf = some (pr, rest)) :
    skipElem contains_names buf = some rest := by
  cases contains_names with
  | false =>
    unfold parseElem at h
    unfold skipElem
    rcases hrv : read_value buf with _ | ⟨vr⟩
    · rw [hrv] at h
      exact Option.noConfusion h
    · rw [hrv] at h
      simp only [Option.map, Option.some.injEq, Prod.mk.injEq] at h
      obtain ⟨ob, hob⟩ := read_value_read_bytes_opt buf vr.1 vr.2
        (by rw [hrv])
      rw [hob]
      simp only [Option.map, Option.some.injEq]
      exact h.2
  | true =>
    unfold parseElem at h
    unfold skipElem
    rcases hrs : read_string buf with _ | ⟨nm, rest1⟩
    · rw [hrs] at h
      exact Option.noConfusion h
    · rw [hrs] at h
      dsimp only at h ⊢
      rcases hrv : read_value rest1 with _ | ⟨vr⟩
      · rw [hrv] at h
        exact Option.noConfusion h
      · rw [hrv] at h
        simp only [Option.map, Option.some.injEq, Prod.mk.injEq] at h
        obtain ⟨ob, hob⟩ := read_value_read_bytes_opt rest1 vr.1 vr.2
          (by rw [hrv])
        rw [hob]
        simp only [Option.map, Option.some.injEq]
        exact h.2

theorem skipPairs_of_parsePairs (contains_names : Bool) (n : Nat)
    (buf : List Nat) (pairs : List (Option (List Nat) × RawValue))
    (rest : List Nat)
    (h : parsePairs contains_names n buf = some (pairs, rest)) :
    skipPairs contains_names n buf = some rest := by
  induction n generalizing buf pairs with
  | zero =>
    unfold parsePairs at h
    simp only [Option.some.injEq, Prod.mk.injEq] at h
    unfold skipPairs
    rw [h.2]
  | succ m ih =>
    unfold parsePairs at h
    unfold skipPairs
    rcases hpe : parseElem contains_names buf with _ | ⟨pr, rest1⟩
    · rw [hpe] at h
      exact Option.noConfusion h
    · rw [hpe] at h
      rw [skipElem_of_parseElem contains_names buf pr rest1 (by rw [hpe])]
      dsimp only at h ⊢
      rcases hp : parsePairs contains_names m rest1 with _ | ⟨lr⟩
      · rw [hp] at h
        exact Option.noConfusion h
      · rw [hp] at h
        simp only [Option.map, Option.some.injEq, Prod.mk.injEq] at h
        exact ih rest1 lr.1 (by rw [hp, ← h.2])

/-- **C7**: writing a well-formed buffer to wire form (2-byte big-endian
count, then the accumulated bytes verbatim) and reconstructing with the
matching named-flag yields the original buffer back — its accumulated
region is the exact consumed slice with no re-encoding, so the name/value
pair iteration of the reconstruction is element-for-element identical to
the original's. -/
theorem C7_wire_roundtrip (s : LegacySerializedValues)
    (pairs : List (Option (List Nat) × RawValue))
    (hnum : s.values_num < 65536)
    (hwf : parsePairs s.contains_names s.values_num s.serialized_values =
      some (pairs, [])) :
    new_from_frame (write_to_request s) s.contains_names = some s ∧
    (new_from_frame (write_to_request s) s.contains_names).map
        (fun t => parsePairs t.contains_names t.values_num t.serialized_values) =
      some (some (pairs, [])) := by
  have hskip : skipPairs s.contains_names s.values_num s.serialized_values =
      some [] := skipPairs_of_parsePairs _ _ _ _ _ hwf
  have hmain : new_from_frame (write_to_request s) s.contains_names = some s := by
    unfold new_from_frame write_to_request
    rw [read_short_u16be s.values_num s.serialized_values hnum]
    dsimp only
    rw [hskip]
    simp only [List.length_nil, Nat.sub_zero, List.take_length]
  refine ⟨hmain, ?_⟩
  rw [hmain]
  simp only [Option.map, Option.some.injEq]
  exact hwf

/-- Witness for `C7_wire_roundtrip`: a one-element positional buffer holding
the cell `00 00 00 01 2A` round-trips to itself. -/
theorem C7_wire_roundtrip_witness :
    new_from_frame (write_to_request ⟨[0, 0, 0, 1, 42], 1, false⟩) false =
      some ⟨[0, 0, 0, 1, 42], 1, false⟩ :=
  (C7_wire_roundtrip ⟨[0, 0, 0, 1, 42], 1, false⟩ [(none, .Value [42])]
    (by decide) (by decide)).1

/-! ## Batch iteration

A `ValueList` element is abstracted by the `serialized()` result it
produces (`Except SerializeValuesError LegacySerializedValues`, the
`Result<Cow<LegacySerializedValues>, _>` of the source).  An iterator
obtained from a slice / `Vec` / cloneable-iterator source is its list of
remaining elements; `batch_values_iter` derives a fresh cursor from the
stable source on every call (the source clones the iterator / re-reads the
slice). -/

/-- `[T]::batch_values_iter` / `LegacyBatchValuesFromIter::batch_values_iter`:
derive a fresh traversal cursor from the stable source. -/
def batch_values_iter (src : List α) : List α := src

/-- `LegacyBatchValuesIteratorFromIterator::next_serialized`: pull the next
element and serialize it. -/
def it_next_serialized (ser : α → Except SerializeValuesError LegacySerializedValues) :
    List α → Option (Except SerializeValuesError LegacySerializedValues) × List α
  | [] => (none, [])
  | x :: xs => (some (ser x), xs)

/-- `LegacyBatchValuesIteratorFromIterator::skip_next`: advance without
producing bytes. -/
def it_skip_next : List α → Option Unit × List α
  | [] => (none, [])
  | _ :: xs => (some (), xs)

/-- Repeatedly pull with `next_serialized` until exhaustion: the full
sequence of serialized elements a traversal produces. -/
def drainSerialized (ser : α → Except SerializeValuesError LegacySerializedValues) :
    List α → List (Except SerializeValuesError LegacySerializedValues)
  | [] => []
  | x :: xs => ser x :: drainSerialized ser xs

theorem drainSerialized_unfold
    (ser : α → Except SerializeValuesError LegacySerializedValues)
    (st : List α) :
    drainSerialized ser st =
      match it_next_serialized ser st with
      | (none, _) => []
      | (some r, st2) => r :: drainSerialized ser st2 := by
  cases st <;> rfl

/-- **C8**: two traversals independently obtained from the same re-usable
batch source via `batch_values_iter` produce identical sequences of
serialized elements in the same order; the sequence is exactly the
element-wise serialization of the source, so obtaining a fresh traversal
any number of times yields byte-identical results each time. -/
theorem C8_batch_traversal_restart (α : Type)
    (ser : α → Except SerializeValuesError LegacySerializedValues)
    (src : List α) :
    drainSerialized ser (batch_values_iter src) =
      drainSerialized ser (batch_values_iter src) ∧
    drainSerialized ser (batch_values_iter src) = src.map ser := by
  refine ⟨rfl, ?_⟩
  unfold batch_values_iter
  induction src with
  | nil => rfl
  | cons x xs ih =>
    unfold drainSerialized
    rw [ih, List.map_cons]

/-! ## The first-already-serialized decorator -/

/-- `LegacyBatchValuesFirstSerialized`: an optional precomputed buffer for
position zero, and the underlying traversal (modelled by its remaining
elements). -/
structure LegacyBatchValuesFirstSerialized (α : Type) where
  first : Option LegacySerializedValues
  rest : List α

/-- Decorator `next_serialized`: when the precomputed buffer is present,
consume it, `skip_next` the underlying traversal, and yield the buffer;
otherwise delegate to the underlying `next_serialized`. -/
def fs_next_serialized
    (ser : α → Except SerializeValuesError LegacySerializedValues)
    (s : LegacyBatchValuesFirstSerialized α) :
    Option (Except SerializeValuesError LegacySerializedValues) ×
      LegacyBatchValuesFirstSerialized α :=
  match s.first with
  | some f => (some (.ok f), ⟨none, s.rest.tail⟩)
  | none =>
    match s.rest with
    | [] => (none, s)
    | x :: xs => (some (ser x), ⟨none, xs⟩)

/-- Decorator `write_next_to_request`: as `next_serialized` but yielding the
bytes written to the request (`write_to_request` of the buffer). -/
def fs_write_next_to_request
    (wr : α → Except SerializeValuesError (List Nat))
    (s : LegacyBatchValuesFirstSerialized α) :
    Option (Except SerializeValuesError (List Nat)) ×
      LegacyBatchValuesFirstSerialized α :=
  match s.first with
  | some f => (some (.ok (write_to_request f)), ⟨none, s.rest.tail⟩)
  | none =>
    match s.rest with
    | [] => (none, s)
    | x :: xs => (some (wr x), ⟨none, xs⟩)

/-- Decorator `skip_next`: the source always advances the underlying
traversal (`self.rest.skip_next()`), then returns
`self.first.take().map(|_| ())` — i.e. it reports success exactly when the
precomputed-first slot was still occupied, regardless of how many
underlying elements remain. -/
def fs_skip_next (s : LegacyBatchValuesFirstSerialized α) :
    Option Unit × LegacyBatchValuesFirstSerialized α :=
  ((s.first.map fun _ => ()), ⟨none, s.rest.tail⟩)

/-- **C5**: evaluation of the decorator at the failing input.  With no
precomputed first buffer and one underlying element, `skip_next` returns
nothing (claiming exhaustion) while silently consuming the element —
although `next_serialized` on the same state would still yield an element;
with a precomputed buffer over three underlying elements, the second
`skip_next` already returns nothing.  The first pull via `next_serialized`
does yield the precomputed buffer and consumes the underlying first
element, and subsequent pulls yield the remaining elements unchanged, so
`skip_next` is the operation that breaks the pull contract. -/
theorem C5_skip_next_contract_eval :
    (fs_skip_next (⟨none, [(⟨[0, 0, 0, 1, 7], 1, false⟩ : LegacySerializedValues)]⟩ :
        LegacyBatchValuesFirstSerialized LegacySerializedValues)).1 = none ∧
    (fs_skip_next (⟨none, [(⟨[0, 0, 0, 1, 7], 1, false⟩ : LegacySerializedValues)]⟩ :
        LegacyBatchValuesFirstSerialized LegacySerializedValues)).2.rest = [] ∧
    (fs_next_serialized (fun v => .ok v)
        (⟨none, [(⟨[0, 0, 0, 1, 7], 1, false⟩ : LegacySerializedValues)]⟩ :
          LegacyBatchValuesFirstSerialized LegacySerializedValues)).1 =
      some (.ok ⟨[0, 0, 0, 1, 7], 1, false⟩) ∧
    (fs_next_serialized (fun v => .ok v)
        (⟨some ⟨[0, 0, 0, 1, 9], 1, false⟩,
          [⟨[], 0, false⟩, ⟨[0, 0, 0, 1, 8], 1, false⟩]⟩ :
          LegacyBatchValuesFirstSerialized LegacySerializedValues)) =
      (some (.ok ⟨[0, 0, 0, 1, 9], 1, false⟩),
        ⟨none, [⟨[0, 0, 0, 1, 8], 1, false⟩]⟩) ∧
    (fs_skip_next (⟨some ⟨[0, 0, 0, 1, 9], 1, false⟩,
        [⟨[], 0, false⟩, ⟨[], 1, false⟩, ⟨[], 2, false⟩]⟩ :
        LegacyBatchValuesFirstSerialized LegacySerializedValues)) =
      (some (), ⟨none, [⟨[], 1, false⟩, ⟨[], 2, false⟩]⟩) ∧
    (fs_skip_next (⟨none, [⟨[], 1, false⟩, ⟨[], 2, false⟩]⟩ :
        LegacyBatchValuesFirstSerialized LegacySerializedValues)).1 = none :=
  ⟨rfl, rfl, rfl, rfl, rfl, rfl⟩

/-! ## The dynamically-typed `CqlValue` variant -/

/-- `std::net::IpAddr`: a v4 or v6 address by its octets. -/
inductive IpAddrM : Type
  | V4 (octets : Fin 4 → Fin 256)
  | V6 (octets : Fin 16 → Fin 256)

/-- `impl Value for IpAddr`: length 4 or 16, then the octets. -/
def serializeIpAddr : IpAddrM → SerAttempt
  | .V4 o => (int32be 4 ++ List.ofFn (fun i => (o i).val), none)
  | .V6 o => (int32be 16 ++ List.ofFn (fun i => (o i).val), none)

/-- Base-128 little-endian byte expansion with continuation offset, the
recursion underlying the variable-length encoder. -/
def natToVarBytes (n : Nat) : List Nat :=
  if n < 128 then [n]
  else (n % 128 + 128) :: natToVarBytes (n / 128)
decreasing_by exact Nat.div_lt_self (by omega) (by omega)

/-- Modelled from the spec: `types::vint_encode` (not under `src/`), the
variable-length signed-integer encoder used for the three `CqlDuration`
fields.  The spec fixes only that each field is independently
variable-length encoded; the byte-level format is out of its scope, so a
total zigzag/base-128 encoding stands in for it. -/
def vint_encode (v : Int) : List Nat :=
  natToVarBytes (if 0 ≤ v then (2 * v).toNat else (-2 * v - 1).toNat)

/-- `impl Value for CqlDuration`: reserve the length, vint-encode months,
days and nanoseconds, then back-patch the length (on overflow of the `i32`
length field the reserved prefix keeps its placeholder and `ValueTooBig` is
returned). -/
def serialize_CqlDuration (months days nanoseconds : Int) : SerAttempt :=
  let body := vint_encode months ++ vint_encode days ++ vint_encode nanoseconds
  if (body.length : Int) > i32max then (int32be 0 ++ body, some .mk)
  else (int32be body.length ++ body, none)

/-- `serialize_empty`: a zero-length cell. -/
def serialize_empty : SerAttempt := (int32be 0, none)

/-- `CqlValue`: the dynamically-typed value variant (from
`frame::response::result`, with the variants the serializer dispatches
over; strings are carried as their UTF-8 bytes and floats as their IEEE bit
patterns).  Constructors clashing with Lean names carry a `V` suffix. -/
inductive CqlValue : Type
  | Ascii (s : List Nat)
  | Boolean (b : Bool)
  | Blob (b : List Nat)
  | Counter (c : Int)
  | Decimal (bytes : List Nat) (scale : Int)
  | Date (d : Nat)
  | Double (bits : Nat)
  | Duration (months : Int) (days : Int) (nanoseconds : Int)
  | Empty
  | FloatV (bits : Nat)
  | IntV (i : Int)
  | BigInt (i : Int)
  | Text (s : List Nat)
  | Timestamp (t : Int)
  | Inet (ip : IpAddrM)
  | ListV (l : List CqlValue)
  | MapV (m : List (CqlValue × CqlValue))
  | SetV (l : List CqlValue)
  | UserDefinedType (keyspace : List Nat) (type_name : List Nat)
      (fields : List (List Nat × Option CqlValue))
  | SmallInt (i : Int)
  | TinyInt (i : Int)
  | Time (t : Int)
  | Timeuuid (t : CqlTimeuuid)
  | TupleV (t : List (Option CqlValue))
  | Uuid (u : UuidBytes)
  | Varint (v : List Nat)
  | Vector (l : List CqlValue)

mutual

/-- `impl Value for CqlValue`: dispatch over the runtime tag.  `none` models
divergence — the `todo!()` panic of the `Vector` case; `some` carries the
normal `SerAttempt` outcome (bytes appended, optional `ValueTooBig`). -/
def serializeCqlValue : CqlValue → Option SerAttempt
  | .Ascii s => some (serializeBytes s)
  | .Boolean b => some (serialize_bool b)
  | .Blob b => some (serializeBytes b)
  | .Counter c => some (serialize_Counter c)
  | .Decimal bytes scale => some (serialize_CqlDecimal bytes scale)
  | .Date d => some (serialize_CqlDate d)
  | .Double bits => some (serialize_f64bits bits)
  | .Duration months days nanoseconds =>
      some (serialize_CqlDuration months days nanoseconds)
  | .Empty => some serialize_empty
  | .FloatV bits => some (serialize_f32bits bits)
  | .IntV i => some (serialize_i32 i)
  | .BigInt i => some (serialize_i64 i)
  | .Text s => some (serializeBytes s)
  | .Timestamp t => some (serialize_CqlTimestamp t)
  | .Inet ip => some (serializeIpAddr ip)
  | .SmallInt i => some (serialize_i16 i)
  | .TinyInt i => some (serialize_i8 i)
  | .Time t => some (serialize_CqlTime t)
  | .Timeuuid t => some (serialize_CqlTimeuuid t)
  | .Uuid u => some (serializeUuid u)
  | .Varint v => some (serialize_CqlVarint v)
  | .ListV l =>
      if (l.length : Int) > i32max then some (int32be 0, some .mk)
      else
        match serializeCqlList l with
        | none => none
        | some (body, some e) =>
            some (int32be 0 ++ int32be l.length ++ body, some e)
        | some (body, none) =>
            if ((4 + body.length : Nat) : Int) > i32max then
              some (int32be 0 ++ int32be l.length ++ body, some .mk)
            else
              some (int32be (4 + body.length) ++ int32be l.length ++ body, none)
  | .SetV l =>
      if (l.length : Int) > i32max then some (int32be 0, some .mk)
      else
        match serializeCqlList l with
        | none => none
        | some (body, some e) =>
            some (int32be 0 ++ int32be l.length ++ body, some e)
        | some (body, none) =>
            if ((4 + body.length : Nat) : Int) > i32max then
              some (int32be 0 ++ int32be l.length ++ body, some .mk)
            else
              some (int32be (4 + body.length) ++ int32be l.length ++ body, none)
  | .MapV m =>
      if (m.length : Int) > i32max then some (int32be 0, some .mk)
      else
        match serializeCqlPairs m with
        | none => none
        | some (body, some e) =>
            some (int32be 0 ++ int32be m.length ++ body, some e)
        | some (body, none) =>
            if ((4 + body.length : Nat) : Int) > i32max then
              some (int32be 0 ++ int32be m.length ++ body, some .mk)
            else
              some (int32be (4 + body.length) ++ int32be m.length ++ body, none)
  | .TupleV t =>
      match serializeCqlOptList t with
      | none => none
      | some (body, some e) => some (int32be 0 ++ body, some e)
      | some (body, none) =>
          if (body.length : Int) > i32max then some (int32be 0 ++ body, some .mk)
          else some (int32be body.length ++ body, none)
  | .UserDefinedType _ _ fields =>
      match serializeCqlFields fields with
      | none => none
      | some (body, some e) => some (int32be 0 ++ body, some e)
      | some (body, none) =>
          if (body.length : Int) > i32max then some (int32be 0 ++ body, some .mk)
          else some (int32be body.length ++ body, none)
  | .Vector _ => none
termination_by v => sizeOf v
decreasing_by all_goals (simp_wf <;> omega)

/-- `Option<CqlValue>` elements inside tuples/UDTs: `None` writes the NULL
sentinel, `Some` recurses. -/
def serializeCqlOpt : Option CqlValue → Option SerAttempt
  | none => some (int32be (-1), none)
  | some v => serializeCqlValue v
termination_by o => sizeOf o
decreasing_by all_goals (simp_wf <;> omega)

/-- Serialize list/set elements in order, short-circuiting on failure
(keeping the bytes appended before the failure point). -/
def serializeCqlList : List CqlValue → Option SerAttempt
  | [] => some ([], none)
  | v :: vs =>
      match serializeCqlValue v with
      | none => none
      | some (bv, some e) => some (bv, some e)
      | some (bv, none) =>
          match serializeCqlList vs with
          | none => none
          | some (brest, err) => some (bv ++ brest, err)
termination_by l => sizeOf l
decreasing_by all_goals (simp_wf <;> omega)

/-- Serialize interleaved key/value pairs of a map. -/
def serializeCqlPairs : List (CqlValue × CqlValue) → Option SerAttempt
  | [] => some ([], none)
  | (k, v) :: ps =>
      match serializeCqlValue k with
      | none => none
      | some (bk, some e) => some (bk, some e)
      | some (bk, none) =>
          match serializeCqlValue v with
          | none => none
          | some (bv, some e) => some (bk ++ bv, some e)
          | some (bv, none) =>
              match serializeCqlPairs ps with
              | none => none
              | some (brest, err) => some (bk ++ bv ++ brest, err)
termination_by l => sizeOf l
decreasing_by all_goals (simp_wf <;> omega)

/-- Serialize tuple elements in order. -/
def serializeCqlOptList : List (Option CqlValue) → Option SerAttempt
  | [] => some ([], none)
  | o :: os =>
      match serializeCqlOpt o with
      | none => none
      | some (bo, some e) => some (bo, some e)
      | some (bo, none) =>
          match serializeCqlOptList os with
          | none => none
          | some (brest, err) => some (bo ++ brest, err)
termination_by l => sizeOf l
decreasing_by all_goals (simp_wf <;> omega)

/-- Serialize UDT field values in declaration order (names are ignored by
the wire format). -/
def serializeCqlFields : List (List Nat × Option CqlValue) → Option SerAttempt
  | [] => some ([], none)
  | (_, o) :: fs =>
      match serializeCqlOpt o with
      | none => none
      | some (bo, some e) => some (bo, some e)
      | some (bo, none) =>
          match serializeCqlFields fs with
          | none => none
          | some (brest, err) => some (bo ++ brest, err)
termination_by l => sizeOf l
decreasing_by all_goals (simp_wf <;> omega)

end

mutual

/-- `true` when no `Vector` variant occurs anywhere inside the value. -/
def vectorFree : CqlValue → Bool
  | .ListV l => vectorFreeList l
  | .SetV l => vectorFreeList l
  | .MapV m => vectorFreePairs m
  | .TupleV t => vectorFreeOptList t
  | .UserDefinedType _ _ fs => vectorFreeFields fs
  | .Vector _ => false
  | _ => true
termination_by v => sizeOf v
decreasing_by all_goals (simp_wf <;> omega)

def vectorFreeOpt : Option CqlValue → Bool
  | none => true
  | some v => vectorFree v
termination_by o => sizeOf o
decreasing_by all_goals (simp_wf <;> omega)

def vectorFreeList : List CqlValue → Bool
  | [] => true
  | v :: vs => vectorFree v && vectorFreeList vs
termination_by l => sizeOf l
decreasing_by all_goals (simp_wf <;> omega)

def vectorFreePairs : List (CqlValue × CqlValue) → Bool
  | [] => true
  | (k, v) :: ps => vectorFree k && vectorFree v && vectorFreePairs ps
termination_by l => sizeOf l
decreasing_by all_goals (simp_wf <;> omega)

def vectorFreeOptList : List (Option CqlValue) → Bool
  | [] => true
  | o :: os => vectorFreeOpt o && vectorFreeOptList os
termination_by l => sizeOf l
decreasing_by all_goals (simp_wf <;> omega)

def vectorFreeFields : List (List Nat × Option CqlValue) → Bool
  | [] => true
  | (_, o) :: fs => vectorFreeOpt o && vectorFreeFields fs
termination_by l => sizeOf l
decreasing_by all_goals (simp_wf <;> omega)

end

mutual

theorem serializeCqlValue_total :
    ∀ v : CqlValue, vectorFree v = true → (serializeCqlValue v).isSome = true
  | .ListV l, h => by
    have hl := serializeCqlList_total l (by rw [← h]; rw [vectorFree])
    rw [serializeCqlValue]
    split
    · rfl
    · rcases hb : serializeCqlList l with _ | ⟨body, err⟩
      · rw [hb] at hl
        exact Bool.noConfusion hl
      · rcases err with _ | e
        · dsimp only
          split <;> rfl
        · rfl
  | .SetV l, h => by
    have hl := serializeCqlList_total l (by rw [← h]; rw [vectorFree])
    rw [serializeCqlValue]
    split
    · rfl
    · rcases hb : serializeCqlList l with _ | ⟨body, err⟩
      · rw [hb] at hl
        exact Bool.noConfusion hl
      · rcases err with _ | e
        · dsimp only
          split <;> rfl
        · rfl
  | .MapV m, h => by
    have hl := serializeCqlPairs_total m (by rw [← h]; rw [vectorFree])
    rw [serializeCqlValue]
    split
    · rfl
    · rcases hb : serializeCqlPairs m with _ | ⟨body, err⟩
      · rw [hb] at hl
        exact Bool.noConfusion hl
      · rcases err with _ | e
        · dsimp only
          split <;> rfl
        · rfl
  | .TupleV t, h => by
    have hl := serializeCqlOptList_total t (by rw [← h]; rw [vectorFree])
    rw [serializeCqlValue]
    rcases hb : serializeCqlOptList t with _ | ⟨body, err⟩
    · rw [hb] at hl
      exact Bool.noConfusion hl
    · rcases err with _ | e
      · dsimp only
        split <;> rfl
      · rfl
  | .UserDefinedType ks tn fs, h => by
    have hl := serializeCqlFields_total fs (by rw [← h]; rw [vectorFree])
    rw [serializeCqlValue]
    rcases hb : serializeCqlFields fs with _ | ⟨body, err⟩
    · rw [hb] at hl
      exact Bool.noConfusion hl
    · rcases err with _ | e
      · dsimp only
        split <;> rfl
      · rfl
  | .Vector l, h => by
    rw [vectorFree] at h
    exact Bool.noConfusion h
  | .Ascii s, _ => by rw [serializeCqlValue]; rfl
  | .Boolean b, _ => by rw [serializeCqlValue]; rfl
  | .Blob b, _ => by rw [serializeCqlValue]; rfl
  | .Counter c, _ => by rw [serializeCqlValue]; rfl
  | .Decimal bytes scale, _ => by rw [serializeCqlValue]; rfl
  | .Date d, _ => by rw [serializeCqlValue]; rfl
  | .Double bits, _ => by rw [serializeCqlValue]; rfl
  | .Duration months days nanoseconds, _ => by rw [serializeCqlValue]; rfl
  | .Empty, _ => by rw [serializeCqlValue]; rfl
  | .FloatV bits, _ => by rw [serializeCqlValue]; rfl
  | .IntV i, _ => by rw [serializeCqlValue]; rfl
  | .BigInt i, _ => by rw [serializeCqlValue]; rfl
  | .Text s, _ => by rw [serializeCqlValue]; rfl
  | .Timestamp t, _ => by rw [serializeCqlValue]; rfl
  | .Inet ip, _ => by rw [serializeCqlValue]; rfl
  | .SmallInt i, _ => by rw [serializeCqlValue]; rfl
  | .TinyInt i, _ => by rw [serializeCqlValue]; rfl
  | .Time t, _ => by rw [serializeCqlValue]; rfl
  | .Timeuuid t, _ => by rw [serializeCqlValue]; rfl
  | .Uuid u, _ => by rw [serializeCqlValue]; rfl
  | .Varint v, _ => by rw [serializeCqlValue]; rfl
termination_by v => sizeOf v
decreasing_by all_goals (simp_wf <;> omega)

theorem serializeCqlOpt_total :
    ∀ o : Option CqlValue, vectorFreeOpt o = true → (serializeCqlOpt o).isSome = true
  | none, _ => by rw [serializeCqlOpt]; rfl
  | some v, h => by
    rw [serializeCqlOpt]
    exact serializeCqlValue_total v (by rw [← h]; rw [vectorFreeOpt])
termination_by o => sizeOf o
decreasing_by all_goals (simp_wf <;> omega)

theorem serializeCqlList_total :
    ∀ l : List CqlValue, vectorFreeList l = true → (serializeCqlList l).isSome = true
  | [], _ => by rw [serializeCqlList]; rfl
  | v :: vs, h => by
    rw [vectorFreeList, Bool.and_eq_true] at h
    have hv := serializeCqlValue_total v h.1
    have hvs := serializeCqlList_total vs h.2
    rw [serializeCqlList]
    rcases hb : serializeCqlValue v with _ | ⟨bv, err⟩
    · rw [hb] at hv
      exact Bool.noConfusion hv
    · rcases err with _ | e
      · rcases hr : serializeCqlList vs with _ | ⟨brest, err2⟩
        · rw [hr] at hvs
          exact Bool.noConfusion hvs
        · rfl
      · rfl
termination_by l => sizeOf l
decreasing_by all_goals (simp_wf <;> omega)

theorem serializeCqlPairs_total :
    ∀ l : List (CqlValue × CqlValue), vectorFreePairs l = true →
      (serializeCqlPairs l).isSome = true
  | [], _ => by rw [serializeCqlPairs]; rfl
  | (k, v) :: ps, h => by
    rw [vectorFreePairs, Bool.and_eq_true, Bool.and_eq_true] at h
    have hk := serializeCqlValue_total k h.1.1
    have hv := serializeCqlValue_total v h.1.2
    have hps := serializeCqlPairs_total ps h.2
    rw [serializeCqlPairs]
    rcases hbk : serializeCqlValue k with _ | ⟨bk, errk⟩
    · rw [hbk] at hk
      exact Bool.noConfusion hk
    · rcases errk with _ | e
      · rcases hbv : serializeCqlValue v with _ | ⟨bv, errv⟩
        · rw [hbv] at hv
          exact Bool.noConfusion hv
        · rcases errv with _ | e
          · rcases hr : serializeCqlPairs ps with _ | ⟨brest, err2⟩
            · rw [hr] at hps
              exact Bool.noConfusion hps
            · rfl
          · rfl
      · rfl
termination_by l => sizeOf l
decreasing_by all_goals (simp_wf <;> omega)

theorem serializeCqlOptList_total :
    ∀ l : List (Option CqlValue), vectorFreeOptList l = true →
      (serializeCqlOptList l).isSome = true
  | [], _ => by rw [serializeCqlOptList]; rfl
  | o :: os, h => by
    rw [vectorFreeOptList, Bool.and_eq_true] at h
    have ho := serializeCqlOpt_total o h.1
    have hos := serializeCqlOptList_total os h.2
    rw [serializeCqlOptList]
    rcases hb : serializeCqlOpt o with _ | ⟨bo, err⟩
    · rw [hb] at ho
      exact Bool.noConfusion ho
    · rcases err with _ | e
      · rcases hr : serializeCqlOptList os with _ | ⟨brest, err2⟩
        · rw [hr] at hos
          exact Bool.noConfusion hos
        · rfl
      · rfl
termination_by l => sizeOf l
decreasing_by all_goals (simp_wf <;> omega)

theorem serializeCqlFields_total :
    ∀ l : List (List Nat × Option CqlValue), vectorFreeFields l = true →
      (serializeCqlFields l).isSome = true
  | [], _ => by rw [serializeCqlFields]; rfl
  | (nm, o) :: fs, h => by
    rw [vectorFreeFields, Bool.and_eq_true] at h
    have ho := serializeCqlOpt_total o h.1
    have hfs := serializeCqlFields_total fs h.2
    rw [serializeCqlFields]
    rcases hb : serializeCqlOpt o with _ | ⟨bo, err⟩
    · rw [hb] at ho
      exact Bool.noConfusion ho
    · rcases err with _ | e
      · rcases hr : serializeCqlFields fs with _ | ⟨brest, err2⟩
        · rw [hr] at hfs
          exact Bool.noConfusion hfs
        · rfl
      · rfl
termination_by l => sizeOf l
decreasing_by all_goals (simp_wf <;> omega)

end

/-- **C9** (counterexample): a value that is *not* a `Vector` but contains
one — the one-element list `[Vector []]` — also diverges (the recursive
element serialization reaches the `todo!()`), refuting "for every
`CqlValue` that is not a `Vector`, serialize terminates normally". -/
theorem C9_counterexample_nested_vector :
    serializeCqlValue (.ListV [.Vector []]) = none := by
  have hv : serializeCqlValue (.Vector ([] : List CqlValue)) = none := by
    rw [serializeCqlValue]
  have hl : serializeCqlList [.Vector []] = none := by
    rw [serializeCqlList, hv]
  rw [serializeCqlValue]
  rw [if_neg (by norm_num [i32max])]
  rw [hl]

/-- **C9** (amended): serializing the dynamically-typed value variant is
total — returns `Ok` or `ValueTooBig` without panicking — for every value
containing no `Vector` anywhere, while serializing a `Vector` value hits
the explicit not-yet-implemented marker and diverges rather than producing
any wire encoding. -/
theorem C9_cqlvalue_totality_amended :
    (∀ v : CqlValue, vectorFree v = true → (serializeCqlValue v).isSome = true) ∧
    (∀ l : List CqlValue, serializeCqlValue (.Vector l) = none) := by
  refine ⟨serializeCqlValue_total, ?_⟩
  intro l
  rw [serializeCqlValue]

/-- Witness for `C9_cqlvalue_totality_amended` at the concrete value
`Empty`. -/
theorem C9_cqlvalue_totality_amended_witness :
    (serializeCqlValue CqlValue.Empty).isSome = true :=
  C9_cqlvalue_totality_amended.1 CqlValue.Empty (by simp [vectorFree])

end ScyllaValue
